import Mathlib

/-!
Verification of the DMV-Appointment-Monitor service against its
natural-language specification.

The development shallowly embeds the parts of `monitor_service.py`,
`database.py` and `api.py` that the specification's claims are about:

* the monitor configuration (category list, category-key map, location list);
* the `last_check` snapshot table and `Database.save_slots_info`
  (zero-then-upsert write of per-location slot counts);
* `Database.remove_old_subscriptions` (subscription purge);
* `NotificationManager.send_notification` (subscriber matching and
  message-body composition);
* `PushNotificationService.send_push` / `api.send_push_notification`
  (audience-claim derivation from the push endpoint);
* `PageNavigator.safe_click` (retry loop, fatal-banner detection,
  screenshot on exhaustion);
* `SlotChecker.check_slots` (two-month calendar horizon);
* `LocationChecker.check_locations` (per-location error absorption and
  unconditional back-navigation).

Browser effects are modelled by environments describing the observable
outcome of each page interaction; database tables are modelled as lists
of rows; timestamps are integers (seconds).
-/

namespace DMV

/-! ## Configuration (`monitor_service.py`, class `Config`) -/

namespace Config

def categories : List String :=
  [ "Driver License - First Time", "Driver License Duplicate",
    "Driver License Renewal", "Fees", "ID Card", "Knowledge/Computer Test",
    "Legal Presence", "Motorcycle Skills Test", "Non-CDL Road Test",
    "Permits", "Teen Driver Level 1", "Teen Driver Level 2",
    "Teen Driver Level 3" ]

def category_map : List (String × String) :=
  [ ("Driver License - First Time", "driver_license_first_time"),
    ("Driver License Duplicate", "driver_license_duplicate"),
    ("Driver License Renewal", "driver_license_renewal"),
    ("Fees", "fees"),
    ("ID Card", "id_card"),
    ("Knowledge/Computer Test", "knowledge_computer_test"),
    ("Legal Presence", "legal_presence"),
    ("Motorcycle Skills Test", "motorcycle_skills_test"),
    ("Non-CDL Road Test", "non_cdl_road_test"),
    ("Permits", "permits"),
    ("Teen Driver Level 1", "teen_driver_level_1"),
    ("Teen Driver Level 2", "teen_driver_level_2"),
    ("Teen Driver Level 3", "teen_driver_level_3") ]

def locations : List String :=
  [ "Aberdeen", "Ahoskie", "Albemarle", "Andrews", "Asheboro", "Asheville",
    "Boone", "Brevard", "Bryson City", "Burgaw", "Burnsville", "Carrboro",
    "Cary", "Charlotte East", "Charlotte North", "Charlotte South",
    "Charlotte West", "Clayton", "Clinton", "Clyde", "Concord", "Durham East",
    "Durham South", "Elizabeth City", "Elizabethtown", "Elkin", "Erwin",
    "Fayetteville South", "Fayetteville West", "Forest City", "Franklin",
    "Fuquay-Varina", "Garner", "Gastonia", "Goldsboro", "Graham",
    "Greensboro East", "Greensboro West", "Greenville", "Hamlet", "Havelock",
    "Henderson", "Hendersonville", "Hickory", "High Point", "Hillsborough",
    "Hudson", "Huntersville", "Jacksonville", "Jefferson", "Kernersville",
    "Kinston", "Lexington", "Lincolnton", "Louisburg", "Lumberton", "Marion",
    "Marshall", "Mocksville", "Monroe", "Mooresville", "Morehead City",
    "Morganton", "Mount Airy", "Mount Holly", "Nags Head", "New Bern",
    "Newton", "Oxford", "Polkton", "Raleigh North", "Raleigh West",
    "Roanoke Rapids", "Rocky Mount", "Roxboro", "Salisbury", "Sanford",
    "Shallotte", "Shelby", "Siler City", "Smithfield", "Statesville",
    "Stedman", "Sylva", "Tarboro", "Taylorsville", "Thomasville", "Troy",
    "Washington", "Wendell", "Wentworth", "Whiteville", "Wilkesboro",
    "Williamston", "Wilmington North", "Wilmington South", "Wilson",
    "Winston Salem North", "Winston Salem South", "Yadkinville" ]

def max_subscription_age_hours : Int := 72

def max_cycles_before_restart : Nat := 2

end Config

/-- Lookup in the category map (`Config.category_map.get(category)`). -/
def lookupCategory (map : List (String × String)) (category : String) :
    Option String :=
  (map.find? (fun p => p.1 == category)).map (·.2)

/-! ## The `last_check` table (`database.py`)

A row of the `last_check` table; `id` is omitted (it carries no
information used by any operation) and `last_checked` is an integer
timestamp.  The SQL `UNIQUE(category, location_name)` constraint is the
`keysNodup` invariant below. -/

structure Row where
  category : String
  location_name : String
  has_slots : Nat
  last_checked : Int
  deriving DecidableEq, Repr

def keyOf (r : Row) : String × String := (r.category, r.location_name)

/-- The SQL uniqueness constraint `UNIQUE(category, location_name)`. -/
def keysNodup (rows : List Row) : Prop := (rows.map keyOf).Nodup

/-- All rows of the table with the given key; under `keysNodup` this list
has at most one element. -/
def rowsFor (rows : List Row) (cat loc : String) : List Row :=
  rows.filter (fun r => r.category == cat && r.location_name == loc)

/-- `INSERT ... ON CONFLICT(category, location_name) DO UPDATE`: update the
conflicting row in place, or append a fresh row. -/
def upsert (rows : List Row) (cat loc : String) (slots : Nat) (ts : Int) :
    List Row :=
  match rows with
  | [] => [⟨cat, loc, slots, ts⟩]
  | r :: rest =>
    if r.category == cat && r.location_name == loc then
      ⟨cat, loc, slots, ts⟩ :: rest
    else
      r :: upsert rest cat loc slots ts

/-- First loop of `Database.save_slots_info`: update all configured
locations for this category to 0 slots. -/
def zeroAll (cat : String) (ts : Int) (locs : List String) (rows : List Row) :
    List Row :=
  locs.foldl (fun acc loc => upsert acc cat loc 0 ts) rows

/-- Second loop of `Database.save_slots_info`: update the locations that
appear in `slots_data` to their observed counts. -/
def applyData (cat : String) (ts : Int) (slots_data : List (String × Nat))
    (rows : List Row) : List Row :=
  slots_data.foldl (fun acc sd => upsert acc cat sd.1 sd.2 ts) rows

/-- `Database.save_slots_info(category, locations, slots_data)`: zero all
configured locations for the category, then upsert the observed counts. -/
def save_slots_info (cat : String) (locs : List String)
    (slots_data : List (String × Nat)) (ts : Int) (rows : List Row) :
    List Row :=
  applyData cat ts slots_data (zeroAll cat ts locs rows)

/-- Value recorded for a location by `slots_data` (`slot['slots']` of its
entry), defaulting to 0 when the location has no entry. -/
def dataCount (slots_data : List (String × Nat)) (loc : String) : Nat :=
  ((slots_data.find? (fun p => p.1 == loc)).map (·.2)).getD 0


/-! ## Subscriptions (`database.py`, table `subscriptions`)

`created_at` is an integer timestamp in seconds (the code stores ISO-8601
strings whose lexicographic order agrees with chronological order for the
fixed format it uses).  `last_notification_sent` is kept to model the full
row; no code path ever writes or reads it. -/

structure Subscription where
  user_id : String
  push_subscription : String
  categories : List String
  locations : List String
  date_range_days : Nat
  created_at : Int
  last_notification_sent : Option Int
  deriving DecidableEq, Repr

/-- `Database.remove_old_subscriptions(max_age_hours)`: delete rows with
`created_at < now - timedelta(hours=max_age_hours)` and return the number
deleted. -/
def remove_old_subscriptions (now max_age_hours : Int)
    (subs : List Subscription) : List Subscription × Nat :=
  let cutoff := now - max_age_hours * 3600
  (subs.filter (fun s => !(decide (s.created_at < cutoff))),
   (subs.filter (fun s => decide (s.created_at < cutoff))).length)

/-- The observable actions of one cycle iteration of `DMVMonitor.run`, in
program order: the purge runs at the start of each cycle, before the scan. -/
inductive CycleStep where
  | purgeOldSubscriptions
  | scanAllCategories
  | sleep
  deriving DecidableEq, Repr

def run_cycle_steps : List CycleStep :=
  [CycleStep.purgeOldSubscriptions, CycleStep.scanAllCategories,
   CycleStep.sleep]

/-! ## Notification dispatch (`monitor_service.py`, `NotificationManager`) -/

/-- The subscriptions `NotificationManager.send_notification` attempts a
push to: nothing when `total_slots` is empty, when no subscriptions are
loaded, or when the category has no mapping; otherwise the loaded
subscriptions with a non-empty push descriptor whose category set contains
the mapped key and whose location set contains the location. -/
def send_targets (category_map : List (String × String))
    (category location_name : String)
    (total_slots : List (String × List String))
    (subs : List Subscription) : List Subscription :=
  if total_slots.isEmpty then []
  else if subs.isEmpty then []
  else
    match lookupCategory category_map category with
    | none => []
    | some key =>
      subs.filter (fun s =>
        !(s.push_subscription == "") &&
          s.categories.contains key && s.locations.contains location_name)

/-- `", ".join(times[:2])` plus `" (+K more)"` when more than two times
exist for the date. -/
def format_times (times : List String) : String :=
  let s := String.intercalate ", " (times.take 2)
  if 2 < times.length then
    s ++ " (+" ++ toString (times.length - 2) ++ " more)"
  else s

/-- One rendered line per date, in insertion order. -/
def slots_lines (total_slots : List (String × List String)) : List String :=
  total_slots.map (fun p => p.1 ++ ": " ++ format_times p.2)

/-- `slots_lines[:3]`. -/
def display_lines (total_slots : List (String × List String)) : List String :=
  (slots_lines total_slots).take 3

/-- `"\n(+M more dates)"` when more than three dates exist, else empty. -/
def more_dates_suffix (total_slots : List (String × List String)) : String :=
  if 3 < (slots_lines total_slots).length then
    "\n(+" ++ toString ((slots_lines total_slots).length - 3) ++ " more dates)"
  else ""

def notification_title : String := "🚗 New DMV appointment available!"

/-- The composed push message body. -/
def message_body (category location_name : String)
    (total_slots : List (String × List String)) : String :=
  "📋 " ++ category ++ "\n" ++
  "📍 " ++ location_name ++ "\n" ++
  "📅 Available slots:\n" ++
  String.intercalate "\n" (display_lines total_slots) ++
  more_dates_suffix total_slots

/-! ## Push audience derivation
(`monitor_service.py` `PushNotificationService.send_push` and
`api.py` `send_push_notification`) -/

/-- Python's substring test `pat in s`. -/
def strContains (s pat : String) : Bool :=
  decide (List.IsInfix pat.data s.data)

/-- Split a character list at the first occurrence of `pat`, returning the
parts before and after it; `none` when `pat` does not occur. -/
def breakOnSub (pat : List Char) : List Char → Option (List Char × List Char)
  | [] => if pat.isPrefixOf ([] : List Char) then some ([], []) else none
  | c :: cs =>
    if pat.isPrefixOf (c :: cs) then some ([], (c :: cs).drop pat.length)
    else
      match breakOnSub pat cs with
      | some (pre, post) => some (c :: pre, post)
      | none => none

/-- Model of the stdlib `urllib.parse.urlparse` restricted to the two
fields the code reads: `scheme` (the part before the first `"://"`, empty
when there is none) and `netloc` (the part after it, up to the first `/`,
`?` or `#`). -/
def urlparse_scheme_netloc (url : String) : String × String :=
  match breakOnSub "://".data url.data with
  | none => ("", "")
  | some (pre, post) =>
    (String.mk pre,
     String.mk (post.takeWhile (fun c => !(c == '/' || c == '?' || c == '#'))))

/-- Audience claim computed by `PushNotificationService.send_push` in
`monitor_service.py`. -/
def send_push_aud (endpoint : String) : String :=
  if strContains endpoint "apple.com" then "https://web.push.apple.com"
  else if strContains endpoint "fcm.googleapis.com" then
    "https://fcm.googleapis.com"
  else if strContains endpoint "mozilla.com" then
    "https://updates.push.services.mozilla.com"
  else
    let parsed := urlparse_scheme_netloc endpoint
    parsed.1 ++ "://" ++ parsed.2

/-- Audience claim computed by `send_push_notification` in `api.py`. -/
def api_send_push_aud (endpoint : String) : String :=
  if strContains endpoint "apple.com" then "https://web.push.apple.com"
  else if strContains endpoint "fcm.googleapis.com" then
    "https://fcm.googleapis.com"
  else if strContains endpoint "mozilla.com" then
    "https://updates.push.services.mozilla.com"
  else
    let parsed := urlparse_scheme_netloc endpoint
    parsed.1 ++ "://" ++ parsed.2

/-! ## `PageNavigator.safe_click`

An attempt's interaction with the page is described by an `Attempt`
environment: what the optional expected-state visibility probe reported
(visible / not visible / probe raised), whether the
wait-click-wait sequence succeeded, and whether the page content contained
the NCDMV fatal-error banner (inspected only after a failure). -/

inductive ExpCheck where
  | visible
  | notVisible
  | errored
  deriving DecidableEq, Repr

structure Attempt where
  exp_check : ExpCheck
  click_ok : Bool
  banner : Bool
  deriving DecidableEq, Repr

inductive SCOutcome where
  | success
  | serverError
  | restartRequired
  | outOfAttempts
  deriving DecidableEq, Repr

structure SCResult where
  outcome : SCOutcome
  clicks : Nat
  screenshots : Nat
  attempts_used : Nat
  deriving DecidableEq, Repr

/-- Whether an attempt's try-block completes without raising. -/
def attempt_succeeds (has_expected : Bool) (a : Attempt) : Bool :=
  (has_expected && a.exp_check == ExpCheck.visible) ||
  (!(has_expected && a.exp_check == ExpCheck.errored) && a.click_ok)

/-- Number of clicks an attempt performs: none when the expected state is
already visible (early return) or the visibility probe raises before the
click; one otherwise. -/
def attempt_clicks (has_expected : Bool) (a : Attempt) : Nat :=
  if has_expected &&
      (a.exp_check == ExpCheck.visible || a.exp_check == ExpCheck.errored)
  then 0 else 1

/-- The retry loop of `safe_click`, one `Attempt` environment per loop
iteration (the list has length `max_attempts`).  Accumulators: clicks
performed, screenshots requested, attempts used. -/
def safeClickGo (has_expected : Bool) :
    List Attempt → Nat → Nat → Nat → SCResult
  | [], clicks, shots, used => ⟨SCOutcome.outOfAttempts, clicks, shots, used⟩
  | a :: rest, clicks, shots, used =>
    if has_expected && a.exp_check == ExpCheck.visible then
      ⟨SCOutcome.success, clicks, shots, used + 1⟩
    else
      let clicks' := clicks + attempt_clicks has_expected a
      if (!(has_expected && a.exp_check == ExpCheck.errored)) && a.click_ok
      then ⟨SCOutcome.success, clicks', shots, used + 1⟩
      else if a.banner then
        ⟨SCOutcome.serverError, clicks', shots, used + 1⟩
      else if rest.isEmpty then
        ⟨SCOutcome.restartRequired, clicks', shots + 1, used + 1⟩
      else safeClickGo has_expected rest clicks' shots (used + 1)

/-- `PageNavigator.safe_click`: `has_expected` is whether `expected_text`
was passed (non-`None`). -/
def safe_click (has_expected : Bool) (attempts : List Attempt) : SCResult :=
  safeClickGo has_expected attempts 0 0 0

/-! ## `SlotChecker.check_slots` -/

/-- Python `dict.update`: values of existing keys are overwritten in
place, new keys are appended in the second mapping's order. -/
def updateMap (m1 m2 : List (String × List String)) :
    List (String × List String) :=
  m1.map (fun p =>
      match m2.find? (fun q => q.1 == p.1) with
      | some q => q
      | none => p) ++
    m2.filter (fun q => !(m1.any (fun p => p.1 == q.1)))

/-- Environment of one `check_slots` call: whether the enabled next-month
control was present at entry, the two months' extracted day-to-times
mappings, and whether clicking the next-month control succeeded. -/
structure SlotEnv where
  next_available : Bool
  month1 : List (String × List String)
  month2 : List (String × List String)
  next_click_ok : Bool
  deriving Repr

structure CheckSlotsResult where
  result : Option (List (String × List String))
  months_read : Nat
  next_clicks : Nat
  deriving DecidableEq, Repr

/-- `SlotChecker.check_slots`: read the current month; when the next-month
control was available, click it once and read one further month.  `result`
is `none` when the click on the next-month control raised (the exception
propagates to the caller). -/
def check_slots (env : SlotEnv) : CheckSlotsResult :=
  if env.next_available then
    if env.next_click_ok then
      ⟨some (updateMap env.month1 env.month2), 2, 1⟩
    else ⟨none, 1, 1⟩
  else ⟨some env.month1, 1, 0⟩

/-! ## `LocationChecker.check_locations` -/

/-- Observable outcome of entering one location and extracting its slots:
the location's panel is absent from the page; extraction returned a merged
day-to-times mapping; a `ServerErrorException` was raised; some other
exception was raised. -/
inductive LocOutcome where
  | absent
  | ok (slots : List (String × List String))
  | serverError
  | otherError
  deriving DecidableEq, Repr

structure LocEnv where
  outcome : LocOutcome
  go_back_ok : Bool
  deriving DecidableEq, Repr

def isPresent : LocOutcome → Bool
  | LocOutcome.absent => false
  | _ => true

/-- The mapping `check_locations` ends up holding in `total_slots` for a
location: the extracted mapping on success, empty on either error. -/
def observedSlots : LocOutcome → List (String × List String)
  | LocOutcome.ok slots => slots
  | _ => []

/-- `sum(len(times) for times in total_slots.values())`. -/
def totalTimes (slots : List (String × List String)) : Nat :=
  (slots.map (fun p => p.2.length)).sum

/-- The slot count `check_locations` records for a location. -/
def scanCount (env : String → LocEnv) (loc : String) : Nat :=
  totalTimes (observedSlots (env loc).outcome)

/-- User ids `send_notification` attempts a push to for one location. -/
def notifiedUsers (env : String → LocEnv)
    (category_map : List (String × String)) (category : String)
    (subs : List Subscription) (loc : String) : List String :=
  (send_targets category_map category loc (observedSlots (env loc).outcome)
    subs).map Subscription.user_id

structure CheckLocationsResult where
  slots_data : List (String × Nat)
  notifications : List (String × List String)
  go_backs : Nat
  completed : Bool
  deriving DecidableEq, Repr

/-- The location loop of `check_locations`.  `completed = false` records
that a failing `go_back` raised `RestartRequiredException`, aborting the
loop before `save_slots_info` is reached.  Errors while entering a
location or extracting its slots are absorbed into an empty mapping. -/
def checkLocationsGo (env : String → LocEnv)
    (category_map : List (String × String)) (category : String)
    (subs : List Subscription) :
    List String → List String → CheckLocationsResult
  | [], _ => ⟨[], [], 0, true⟩
  | loc :: rest, visited =>
    if loc ∈ visited then
      checkLocationsGo env category_map category subs rest visited
    else if isPresent (env loc).outcome then
      let total_slots := observedSlots (env loc).outcome
      let cnt := totalTimes total_slots
      let notif := (loc, (send_targets category_map category loc total_slots
        subs).map Subscription.user_id)
      if (env loc).go_back_ok then
        let r := checkLocationsGo env category_map category subs rest
          (loc :: visited)
        ⟨(loc, cnt) :: r.slots_data, notif :: r.notifications,
          r.go_backs + 1, r.completed⟩
      else ⟨[(loc, cnt)], [notif], 1, false⟩
    else checkLocationsGo env category_map category subs rest visited

/-- `LocationChecker.check_locations` over a configured location list
(`Config.locations` in the program). -/
def check_locations (locs : List String) (env : String → LocEnv)
    (category_map : List (String × String)) (category : String)
    (subs : List Subscription) : CheckLocationsResult :=
  checkLocationsGo env category_map category subs locs []

/-! ## Concrete scenarios used to exercise the definitions -/

/-- A page state for one category scan: Cary shows a calendar with two
bookable times on one date, Durham East renders the site's fatal-error
page on entry, every other location is absent from the location list. -/
def wOutcomeA (l : String) : LocOutcome :=
  if l = "Cary" then
    LocOutcome.ok [("June 2, 2025", ["9:00 AM", "9:15 AM"])]
  else if l = "Durham East" then LocOutcome.serverError
  else LocOutcome.absent

/-- Environment for `check_locations` in which every back-navigation
succeeds. -/
def wEnvA (l : String) : LocEnv := ⟨wOutcomeA l, true⟩

/-- A subscriber interested in Fees appointments at Cary who has already
been notified once (`last_notification_sent` set). -/
def wSub1 : Subscription :=
  ⟨"u1", "endpoint-json", ["fees"], ["Cary"], 14, 0, some 100⟩

/-- The slot mapping observed at Cary in the scenario above. -/
def wSlots : List (String × List String) :=
  [("June 2, 2025", ["9:00 AM", "9:15 AM"])]

/-- A subscriber created one second after the purge cutoff used in the
purge witness (`now = 1000000`, 72-hour window, cutoff `740800`). -/
def wSub2 : Subscription :=
  ⟨"u2", "endpoint-json", ["fees"], ["Cary"], 14, 740801, none⟩

/-- The spec's message-composition example: four dates, three times each. -/
def juneSlots : List (String × List String) :=
  [("June 1", ["9:00", "10:00", "11:00"]),
   ("June 2", ["9:00", "10:00", "11:00"]),
   ("June 3", ["9:00", "10:00", "11:00"]),
   ("June 4", ["9:00", "10:00", "11:00"])]

/-! ## Lemmas -/

/-! ### Lemmas about `upsert` -/

theorem upsert_map_keyOf (rows : List Row) (cat loc : String) (v : Nat)
    (ts : Int) :
    (upsert rows cat loc v ts).map keyOf =
      if (cat, loc) ∈ rows.map keyOf then rows.map keyOf
      else rows.map keyOf ++ [(cat, loc)] := by
  induction rows with
  | nil => simp [upsert, keyOf]
  | cons r rest ih =>
    by_cases h : r.category = cat ∧ r.location_name = loc
    · have hk : keyOf r = (cat, loc) := by
        simp [keyOf, h.1, h.2]
      simp [upsert, h.1, h.2, hk, keyOf]
    · have hb : (r.category == cat && r.location_name == loc) = false := by
        rcases Decidable.not_and_iff_or_not.mp h with h1 | h1 <;>
          simp [h1]
      have hk : keyOf r ≠ (cat, loc) := by
        intro hc
        exact h ⟨congrArg Prod.fst hc, congrArg Prod.snd hc⟩
      simp only [upsert, hb, Bool.false_eq_true, if_false, List.map_cons, ih,
        List.mem_cons]
      by_cases hm : (cat, loc) ∈ rest.map keyOf
      · simp [hm, hk.symm]
      · simp [hm, hk.symm]

theorem keysNodup_upsert {rows : List Row} (cat loc : String) (v : Nat)
    (ts : Int) (h : keysNodup rows) :
    keysNodup (upsert rows cat loc v ts) := by
  unfold keysNodup at *
  rw [upsert_map_keyOf]
  by_cases hm : (cat, loc) ∈ rows.map keyOf
  · simpa [hm] using h
  · simp only [hm, if_false]
    have hd : (rows.map keyOf).Disjoint [(cat, loc)] := by
      intro a ha hb
      simp only [List.mem_singleton] at hb
      subst hb
      exact hm ha
    exact List.Nodup.append h (List.nodup_singleton _) hd

theorem rowsFor_eq_nil_of_not_mem {rows : List Row} {cat loc : String}
    (h : (cat, loc) ∉ rows.map keyOf) : rowsFor rows cat loc = [] := by
  induction rows with
  | nil => rfl
  | cons r rest ih =>
    simp only [List.map_cons, List.mem_cons] at h
    push_neg at h
    have hb : (r.category == cat && r.location_name == loc) = false := by
      by_contra hc
      have heq : r.category = cat ∧ r.location_name = loc := by
        have hbe := Bool.of_not_eq_false hc
        simpa using hbe
      apply h.1
      simp [keyOf, heq.1, heq.2]
    simp only [rowsFor, List.filter_cons, hb]
    exact ih h.2

theorem rowsFor_upsert_self {rows : List Row} (cat loc : String) (v : Nat)
    (ts : Int) (h : keysNodup rows) :
    rowsFor (upsert rows cat loc v ts) cat loc = [⟨cat, loc, v, ts⟩] := by
  induction rows with
  | nil => simp [upsert, rowsFor]
  | cons r rest ih =>
    by_cases hb : r.category = cat ∧ r.location_name = loc
    · have hbt : (r.category == cat && r.location_name == loc) = true := by
        simp [hb.1, hb.2]
      have hkey : keyOf r = (cat, loc) := by simp [keyOf, hb.1, hb.2]
      have hrest : (cat, loc) ∉ rest.map keyOf := by
        unfold keysNodup at h
        simp only [List.map_cons, List.nodup_cons] at h
        exact hkey ▸ h.1
      simp only [upsert, hbt, if_true, rowsFor, List.filter_cons]
      simp only [rowsFor] at *
      have := rowsFor_eq_nil_of_not_mem hrest
      simp only [rowsFor] at this
      simp [this]
    · have hbf : (r.category == cat && r.location_name == loc) = false := by
        rcases Decidable.not_and_iff_or_not.mp hb with h1 | h1 <;> simp [h1]
      have htail : keysNodup rest := by
        unfold keysNodup at *
        simp only [List.map_cons, List.nodup_cons] at h
        exact h.2
      simp only [upsert, hbf, Bool.false_eq_true, if_false, rowsFor,
        List.filter_cons, hbf]
      exact ih htail

theorem rowsFor_upsert_ne {rows : List Row} {c l cat loc : String} (v : Nat)
    (ts : Int) (h : ¬(c = cat ∧ l = loc)) :
    rowsFor (upsert rows cat loc v ts) c l = rowsFor rows c l := by
  have hnew : ((⟨cat, loc, v, ts⟩ : Row).category == c &&
      (⟨cat, loc, v, ts⟩ : Row).location_name == l) = false := by
    by_contra hc
    have hcl : cat = c ∧ loc = l := by
      have := Bool.of_not_eq_false hc
      simpa using this
    exact h ⟨hcl.1.symm, hcl.2.symm⟩
  induction rows with
  | nil => simp [upsert, rowsFor, hnew]
  | cons r rest ih =>
    by_cases hb : r.category = cat ∧ r.location_name = loc
    · have hbt : (r.category == cat && r.location_name == loc) = true := by
        simp [hb.1, hb.2]
      have hrf : (r.category == c && r.location_name == l) = false := by
        by_contra hc
        have hcl : r.category = c ∧ r.location_name = l := by
          have hbe := Bool.of_not_eq_false hc
          simpa using hbe
        exact h ⟨hcl.1.symm.trans hb.1, hcl.2.symm.trans hb.2⟩
      simp [upsert, hbt, rowsFor, List.filter_cons, hnew, hrf]
    · have hbf : (r.category == cat && r.location_name == loc) = false := by
        rcases Decidable.not_and_iff_or_not.mp hb with h1 | h1 <;> simp [h1]
      simp only [upsert, hbf, Bool.false_eq_true, if_false, rowsFor,
        List.filter_cons]
      simp only [rowsFor] at ih
      rw [ih]

/-! ### Lemmas about the two write phases of `save_slots_info` -/

theorem keysNodup_zeroAll (cat : String) (ts : Int) (locs : List String)
    {rows : List Row} (h : keysNodup rows) :
    keysNodup (zeroAll cat ts locs rows) := by
  induction locs generalizing rows with
  | nil => exact h
  | cons l₀ rest ih => exact ih (keysNodup_upsert cat l₀ 0 ts h)

theorem rowsFor_zeroAll_ne {cat : String} {ts : Int} {locs : List String}
    {rows : List Row} {c l : String} (h : ¬(c = cat ∧ l ∈ locs)) :
    rowsFor (zeroAll cat ts locs rows) c l = rowsFor rows c l := by
  induction locs generalizing rows with
  | nil => rfl
  | cons l₀ rest ih =>
    have h1 : ¬(c = cat ∧ l ∈ rest) := by
      intro hc
      exact h ⟨hc.1, List.mem_cons_of_mem _ hc.2⟩
    have h2 : ¬(c = cat ∧ l = l₀) := by
      intro hc
      exact h ⟨hc.1, hc.2 ▸ List.mem_cons_self _ _⟩
    calc rowsFor (zeroAll cat ts (l₀ :: rest) rows) c l
        = rowsFor (zeroAll cat ts rest (upsert rows cat l₀ 0 ts)) c l := rfl
      _ = rowsFor (upsert rows cat l₀ 0 ts) c l := ih h1
      _ = rowsFor rows c l := rowsFor_upsert_ne 0 ts h2

theorem rowsFor_zeroAll_mem {cat : String} {ts : Int} {locs : List String}
    {rows : List Row} {loc : String} (h : keysNodup rows) (hl : loc ∈ locs) :
    rowsFor (zeroAll cat ts locs rows) cat loc = [⟨cat, loc, 0, ts⟩] := by
  induction locs generalizing rows with
  | nil => cases hl
  | cons l₀ rest ih =>
    by_cases hr : loc ∈ rest
    · exact ih (keysNodup_upsert cat l₀ 0 ts h) hr
    · have hl0 : loc = l₀ := by
        rcases List.mem_cons.mp hl with h1 | h1
        · exact h1
        · exact absurd h1 hr
      subst hl0
      calc rowsFor (zeroAll cat ts (loc :: rest) rows) cat loc
          = rowsFor (zeroAll cat ts rest (upsert rows cat loc 0 ts)) cat loc :=
            rfl
        _ = rowsFor (upsert rows cat loc 0 ts) cat loc :=
            rowsFor_zeroAll_ne (by intro hc; exact hr hc.2)
        _ = [⟨cat, loc, 0, ts⟩] := rowsFor_upsert_self cat loc 0 ts h

theorem keysNodup_applyData (cat : String) (ts : Int)
    (sd : List (String × Nat)) {rows : List Row} (h : keysNodup rows) :
    keysNodup (applyData cat ts sd rows) := by
  induction sd generalizing rows with
  | nil => exact h
  | cons p rest ih => exact ih (keysNodup_upsert cat p.1 p.2 ts h)

theorem rowsFor_applyData_ne {cat : String} {ts : Int}
    {sd : List (String × Nat)} {rows : List Row} {c l : String}
    (h : ¬(c = cat ∧ l ∈ sd.map Prod.fst)) :
    rowsFor (applyData cat ts sd rows) c l = rowsFor rows c l := by
  induction sd generalizing rows with
  | nil => rfl
  | cons p rest ih =>
    have h1 : ¬(c = cat ∧ l ∈ rest.map Prod.fst) := by
      intro hc
      exact h ⟨hc.1, by simp only [List.map_cons]; exact List.mem_cons_of_mem _ hc.2⟩
    have h2 : ¬(c = cat ∧ l = p.1) := by
      intro hc
      refine h ⟨hc.1, ?_⟩
      simp [hc.2]
    calc rowsFor (applyData cat ts (p :: rest) rows) c l
        = rowsFor (applyData cat ts rest (upsert rows cat p.1 p.2 ts)) c l :=
          rfl
      _ = rowsFor (upsert rows cat p.1 p.2 ts) c l := ih h1
      _ = rowsFor rows c l := rowsFor_upsert_ne p.2 ts h2

theorem rowsFor_applyData_mem {cat : String} {ts : Int}
    {sd : List (String × Nat)} {rows : List Row} {loc : String} {v : Nat}
    (h : keysNodup rows) (hnd : (sd.map Prod.fst).Nodup)
    (hmem : (loc, v) ∈ sd) :
    rowsFor (applyData cat ts sd rows) cat loc = [⟨cat, loc, v, ts⟩] := by
  induction sd generalizing rows with
  | nil => cases hmem
  | cons p rest ih =>
    simp only [List.map_cons, List.nodup_cons] at hnd
    rcases List.mem_cons.mp hmem with h1 | h1
    · have hp1 : p.1 = loc := by rw [← h1]
      have hp2 : p.2 = v := by rw [← h1]
      have hnr : loc ∉ rest.map Prod.fst := hp1 ▸ hnd.1
      calc rowsFor (applyData cat ts (p :: rest) rows) cat loc
          = rowsFor (applyData cat ts rest (upsert rows cat p.1 p.2 ts))
              cat loc := rfl
        _ = rowsFor (upsert rows cat p.1 p.2 ts) cat loc :=
            rowsFor_applyData_ne (by intro hc; exact hnr hc.2)
        _ = [⟨cat, loc, v, ts⟩] := by
            rw [hp1, hp2] at *
            exact rowsFor_upsert_self cat loc v ts h
    · exact ih (keysNodup_upsert cat p.1 p.2 ts h) hnd.2 h1

theorem keysNodup_save (cat : String) (locs : List String)
    (sd : List (String × Nat)) (ts : Int) {rows : List Row}
    (h : keysNodup rows) : keysNodup (save_slots_info cat locs sd ts rows) :=
  keysNodup_applyData cat ts sd (keysNodup_zeroAll cat ts locs h)

theorem dataCount_of_mem {sd : List (String × Nat)} {loc : String} {v : Nat}
    (hnd : (sd.map Prod.fst).Nodup) (hmem : (loc, v) ∈ sd) :
    dataCount sd loc = v := by
  induction sd with
  | nil => cases hmem
  | cons p rest ih =>
    simp only [List.map_cons, List.nodup_cons] at hnd
    rcases List.mem_cons.mp hmem with h1 | h1
    · have hp1 : p.1 = loc := by rw [← h1]
      have hp2 : p.2 = v := by rw [← h1]
      simp [dataCount, List.find?_cons, hp1, hp2]
    · have hne : (p.1 == loc) = false := by
        by_contra hc
        have : p.1 = loc := by simpa using Bool.of_not_eq_false hc
        apply hnd.1
        rw [this]
        exact List.mem_map_of_mem Prod.fst h1
      have := ih hnd.2 h1
      simpa [dataCount, List.find?_cons, hne] using this

theorem dataCount_of_not_mem {sd : List (String × Nat)} {loc : String}
    (h : loc ∉ sd.map Prod.fst) : dataCount sd loc = 0 := by
  induction sd with
  | nil => rfl
  | cons p rest ih =>
    simp only [List.map_cons, List.mem_cons] at h
    push_neg at h
    have hne : (p.1 == loc) = false := by
      simpa using fun hc => h.1 hc.symm
    have := ih h.2
    simpa [dataCount, List.find?_cons, hne] using this

/-- Main characterization of `Database.save_slots_info`: under the table's
uniqueness invariant, every configured location ends with exactly one row
holding the count from `slots_data` (or 0 when absent from it) and the
write's timestamp. -/
theorem rowsFor_save_mem {cat : String} {locs : List String}
    {sd : List (String × Nat)} {ts : Int} {rows : List Row} {loc : String}
    (h0 : keysNodup rows) (hnd : (sd.map Prod.fst).Nodup) (hl : loc ∈ locs) :
    rowsFor (save_slots_info cat locs sd ts rows) cat loc =
      [⟨cat, loc, dataCount sd loc, ts⟩] := by
  by_cases hm : loc ∈ sd.map Prod.fst
  · obtain ⟨p, hp, hp1⟩ := List.mem_map.mp hm
    have hpl : p = (loc, p.2) := by
      cases p
      simp only at hp1
      rw [hp1]
    have hdc : dataCount sd loc = p.2 := dataCount_of_mem hnd (hpl ▸ hp)
    rw [hdc]
    exact rowsFor_applyData_mem (keysNodup_zeroAll cat ts locs h0) hnd
      (hpl ▸ hp)
  · rw [dataCount_of_not_mem hm]
    calc rowsFor (save_slots_info cat locs sd ts rows) cat loc
        = rowsFor (zeroAll cat ts locs rows) cat loc :=
          rowsFor_applyData_ne (by intro hc; exact hm hc.2)
      _ = [⟨cat, loc, 0, ts⟩] := rowsFor_zeroAll_mem h0 hl

/-- Rows whose key the write does not touch are left unchanged. -/
theorem rowsFor_save_ne {cat : String} {locs : List String}
    {sd : List (String × Nat)} {ts : Int} {rows : List Row} {c l : String}
    (h : ¬(c = cat ∧ (l ∈ locs ∨ l ∈ sd.map Prod.fst))) :
    rowsFor (save_slots_info cat locs sd ts rows) c l = rowsFor rows c l := by
  have h1 : ¬(c = cat ∧ l ∈ sd.map Prod.fst) := by
    intro hc; exact h ⟨hc.1, Or.inr hc.2⟩
  have h2 : ¬(c = cat ∧ l ∈ locs) := by
    intro hc; exact h ⟨hc.1, Or.inl hc.2⟩
  calc rowsFor (save_slots_info cat locs sd ts rows) c l
      = rowsFor (zeroAll cat ts locs rows) c l := rowsFor_applyData_ne h1
    _ = rowsFor rows c l := rowsFor_zeroAll_ne h2

/-! ### Lemmas about `check_locations` -/

theorem observedSlots_of_not_present {o : LocOutcome}
    (h : isPresent o = false) : observedSlots o = [] := by
  cases o <;> simp_all [isPresent, observedSlots]

/-- Closed form of the location loop when every back-navigation succeeds:
one slot-count entry and one notification record per present location, one
back-navigation per present location, and the loop completes. -/
theorem checkLocationsGo_spec (env : String → LocEnv)
    (cmap : List (String × String)) (category : String)
    (subs : List Subscription) :
    ∀ (locs visited : List String), locs.Nodup →
      (∀ l ∈ locs, l ∉ visited) →
      (∀ l ∈ locs, (env l).go_back_ok = true) →
      checkLocationsGo env cmap category subs locs visited =
        ⟨locs.filterMap (fun l =>
            if isPresent (env l).outcome then some (l, scanCount env l)
            else none),
          locs.filterMap (fun l =>
            if isPresent (env l).outcome then
              some (l, notifiedUsers env cmap category subs l)
            else none),
          (locs.filter (fun l => isPresent (env l).outcome)).length,
          true⟩ := by
  intro locs
  induction locs with
  | nil => intro visited _ _ _; rfl
  | cons loc rest ih =>
    intro visited hnd hvis hgb
    have hnv : loc ∉ visited := hvis loc (List.mem_cons_self _ _)
    simp only [List.nodup_cons] at hnd
    have hvrest : ∀ l ∈ rest, l ∉ visited :=
      fun l hl => hvis l (List.mem_cons_of_mem _ hl)
    have hgbrest : ∀ l ∈ rest, (env l).go_back_ok = true :=
      fun l hl => hgb l (List.mem_cons_of_mem _ hl)
    by_cases hp : isPresent (env loc).outcome = true
    · have hgb0 : (env loc).go_back_ok = true :=
        hgb loc (List.mem_cons_self _ _)
      have hvrest' : ∀ l ∈ rest, l ∉ loc :: visited := by
        intro l hl
        simp only [List.mem_cons]
        push_neg
        exact ⟨fun hc => hnd.1 (hc ▸ hl), hvrest l hl⟩
      rw [checkLocationsGo]
      simp only [hnv, if_false, hp, if_true, hgb0,
        ih (loc :: visited) hnd.2 hvrest' hgbrest, List.filterMap_cons,
        List.filter_cons, scanCount, notifiedUsers]
      simp [List.length_cons]
    · have hp' : isPresent (env loc).outcome = false := by
        simpa using hp
      rw [checkLocationsGo]
      simp only [hnv, if_false, hp', Bool.false_eq_true,
        ih visited hnd.2 hvrest hgbrest, List.filterMap_cons,
        List.filter_cons]

/-- For any environment (back-navigation failures included), the number of
back-navigations equals the number of recorded per-location entries: every
entered location is exited through `go_back` exactly once. -/
theorem checkLocationsGo_go_backs (env : String → LocEnv)
    (cmap : List (String × String)) (category : String)
    (subs : List Subscription) :
    ∀ (locs visited : List String),
      (checkLocationsGo env cmap category subs locs visited).go_backs =
        (checkLocationsGo env cmap category subs locs
          visited).slots_data.length := by
  intro locs
  induction locs with
  | nil => intro visited; rfl
  | cons loc rest ih =>
    intro visited
    rw [checkLocationsGo]
    by_cases hv : loc ∈ visited
    · simp only [hv, if_true]
      exact ih visited
    · simp only [hv, if_false]
      by_cases hp : isPresent (env loc).outcome = true
      · simp only [hp, if_true]
        by_cases hgb : (env loc).go_back_ok = true
        · simp only [hgb, if_true, List.length_cons]
          rw [ih (loc :: visited)]
        · simp [hgb]
      · have hp' : isPresent (env loc).outcome = false := by simpa using hp
        simp only [hp', Bool.false_eq_true, if_false]
        exact ih visited

theorem map_fst_filterMap_if {α : Type} (p : String → Bool)
    (g : String → α) (locs : List String) :
    (locs.filterMap (fun l => if p l then some (l, g l) else none)).map
        Prod.fst = locs.filter p := by
  induction locs with
  | nil => rfl
  | cons loc rest ih =>
    by_cases hp : p loc = true
    · simp [List.filterMap_cons, List.filter_cons, hp, ih]
    · have hp' : p loc = false := by simpa using hp
      simp [List.filterMap_cons, List.filter_cons, hp', ih]

/-- The per-location value recorded into the snapshot by a completed scan:
the observed slot count of a present location, 0 for an absent one. -/
theorem dataCount_check_locations (locs : List String)
    (env : String → LocEnv) (cmap : List (String × String))
    (category : String) (subs : List Subscription) (loc : String)
    (hnd : locs.Nodup) (hgb : ∀ l, (env l).go_back_ok = true)
    (hl : loc ∈ locs) :
    dataCount (check_locations locs env cmap category subs).slots_data loc =
      scanCount env loc := by
  have hspec := checkLocationsGo_spec env cmap category subs locs [] hnd
    (by intro l _ hc; cases hc) (fun l _ => hgb l)
  unfold check_locations
  rw [hspec]
  simp only
  have hfst := map_fst_filterMap_if (fun l => isPresent (env l).outcome)
    (fun l => scanCount env l) locs
  by_cases hp : isPresent (env loc).outcome = true
  · have hmem : (loc, scanCount env loc) ∈ locs.filterMap (fun l =>
        if isPresent (env l).outcome then some (l, scanCount env l)
        else none) := by
      apply List.mem_filterMap.mpr
      exact ⟨loc, hl, by simp [hp]⟩
    exact dataCount_of_mem (by rw [hfst]; exact hnd.filter _) hmem
  · have hp' : isPresent (env loc).outcome = false := by simpa using hp
    have hnm : loc ∉ (locs.filterMap (fun l =>
        if isPresent (env l).outcome then some (l, scanCount env l)
        else none)).map Prod.fst := by
      rw [hfst]
      intro hc
      have := List.of_mem_filter hc
      rw [hp'] at this
      cases this
    rw [dataCount_of_not_mem hnm]
    simp [scanCount, observedSlots_of_not_present hp', totalTimes]

/-! ### Lemmas about `safe_click` -/

theorem attempt_succeeds_false {he : Bool} {a : Attempt}
    (h : attempt_succeeds he a = false) :
    (he && a.exp_check == ExpCheck.visible) = false ∧
    ((!(he && a.exp_check == ExpCheck.errored)) && a.click_ok) = false := by
  unfold attempt_succeeds at h
  exact ⟨(Bool.or_eq_false_iff.mp h).1, (Bool.or_eq_false_iff.mp h).2⟩

theorem safeClickGo_exhaust (he : Bool) :
    ∀ (attempts : List Attempt) (clicks shots used : Nat),
      attempts ≠ [] →
      (∀ a ∈ attempts, attempt_succeeds he a = false) →
      (∀ a ∈ attempts, a.banner = false) →
      (safeClickGo he attempts clicks shots used).outcome =
          SCOutcome.restartRequired ∧
      (safeClickGo he attempts clicks shots used).screenshots = shots + 1 := by
  intro attempts
  induction attempts with
  | nil => intro _ _ _ h _ _; exact absurd rfl h
  | cons a rest ih =>
    intro clicks shots used _ hfail hnb
    have hfa := attempt_succeeds_false (hfail a (List.mem_cons_self _ _))
    have hba : a.banner = false := hnb a (List.mem_cons_self _ _)
    rw [safeClickGo]
    simp only [hfa.1, Bool.false_eq_true, if_false, hfa.2, hba]
    cases rest with
    | nil => simp
    | cons b rrest =>
      have hne : (b :: rrest).isEmpty = false := rfl
      simp only [hne, Bool.false_eq_true, if_false]
      exact ih _ _ _ (List.cons_ne_nil _ _)
        (fun x hx => hfail x (List.mem_cons_of_mem _ hx))
        (fun x hx => hnb x (List.mem_cons_of_mem _ hx))

theorem safeClickGo_banner (he : Bool) :
    ∀ (pre : List Attempt) (a : Attempt) (post : List Attempt)
      (clicks shots used : Nat),
      (∀ p ∈ pre, attempt_succeeds he p = false) →
      (∀ p ∈ pre, p.banner = false) →
      attempt_succeeds he a = false → a.banner = true →
      (safeClickGo he (pre ++ a :: post) clicks shots used).outcome =
          SCOutcome.serverError ∧
      (safeClickGo he (pre ++ a :: post) clicks shots used).screenshots =
          shots ∧
      (safeClickGo he (pre ++ a :: post) clicks shots used).attempts_used =
          used + pre.length + 1 := by
  intro pre
  induction pre with
  | nil =>
    intro a post clicks shots used _ _ hfa hba
    have hf := attempt_succeeds_false hfa
    rw [List.nil_append, safeClickGo]
    simp only [hf.1, hf.2, hba, Bool.false_eq_true, if_false]
    simp
  | cons p pre' ih =>
    intro a post clicks shots used hfail hnb hfa hba
    have hfp := attempt_succeeds_false (hfail p (List.mem_cons_self _ _))
    have hbp : p.banner = false := hnb p (List.mem_cons_self _ _)
    rw [List.cons_append, safeClickGo]
    have hne : (pre' ++ a :: post).isEmpty = false := by
      cases pre' <;> rfl
    simp only [hfp.1, Bool.false_eq_true, if_false, hfp.2, hbp, hne]
    have h := ih a post (clicks + attempt_clicks he p) shots (used + 1)
      (fun x hx => hfail x (List.mem_cons_of_mem _ hx))
      (fun x hx => hnb x (List.mem_cons_of_mem _ hx)) hfa hba
    refine ⟨h.1, h.2.1, ?_⟩
    rw [h.2.2]
    simp only [List.length_cons]
    omega

/-! ## Claim theorems -/

/-- C1: After a category scan completes and its snapshot write
(`save_slots_info`) runs, the `last_check` table contains exactly one row
per (category_key, location) for every configured location, whose
`has_slots` equals the slot count the scan observed there
(`scanCount env loc`, which is 0 for a location absent from the page,
errored, or with no valid times), and whose `last_checked` is the write's
timestamp: counts are first zeroed for all configured locations, then set
from the scan's slot summaries. -/
theorem C1_snapshot_write_per_location
    (cat category : String) (locs : List String) (env : String → LocEnv)
    (cmap : List (String × String)) (subs : List Subscription)
    (ts : Int) (rows : List Row)
    (hnd : locs.Nodup) (hgb : ∀ l, (env l).go_back_ok = true)
    (h0 : keysNodup rows) :
    (check_locations locs env cmap category subs).completed = true ∧
    keysNodup (save_slots_info cat locs
      (check_locations locs env cmap category subs).slots_data ts rows) ∧
    ∀ loc ∈ locs,
      rowsFor (save_slots_info cat locs
          (check_locations locs env cmap category subs).slots_data ts rows)
        cat loc = [⟨cat, loc, scanCount env loc, ts⟩] := by
  have hvis : ∀ l ∈ locs, l ∉ ([] : List String) :=
    fun l _ hc => List.not_mem_nil l hc
  have hspec := checkLocationsGo_spec env cmap category subs locs [] hnd
    hvis (fun l _ => hgb l)
  have hcompleted :
      (check_locations locs env cmap category subs).completed = true := by
    unfold check_locations
    rw [hspec]
  have hsdnd : ((check_locations locs env cmap category
      subs).slots_data.map Prod.fst).Nodup := by
    unfold check_locations
    rw [hspec]
    simp only
    rw [map_fst_filterMap_if]
    exact hnd.filter _
  refine ⟨hcompleted, keysNodup_save _ _ _ _ h0, ?_⟩
  intro loc hl
  rw [rowsFor_save_mem h0 hsdnd hl,
    dataCount_check_locations locs env cmap category subs loc hnd hgb hl]

/-- Witness for C1 at the concrete scenario `wEnvA`: Cary (2 observed
times) gets one row with count 2, Durham East (fatal error page) gets one
row with count 0; the scan completes. -/
theorem C1_snapshot_write_per_location_witness :
    (check_locations ["Cary", "Durham East", "Raleigh North"] wEnvA
      Config.category_map "Fees" []).completed = true ∧
    rowsFor (save_slots_info "fees" ["Cary", "Durham East", "Raleigh North"]
        (check_locations ["Cary", "Durham East", "Raleigh North"] wEnvA
          Config.category_map "Fees" []).slots_data 5 []) "fees" "Cary" =
      [⟨"fees", "Cary", 2, 5⟩] ∧
    rowsFor (save_slots_info "fees" ["Cary", "Durham East", "Raleigh North"]
        (check_locations ["Cary", "Durham East", "Raleigh North"] wEnvA
          Config.category_map "Fees" []).slots_data 5 []) "fees"
        "Durham East" =
      [⟨"fees", "Durham East", 0, 5⟩] := by
  have h := C1_snapshot_write_per_location "fees" "Fees"
    ["Cary", "Durham East", "Raleigh North"] wEnvA Config.category_map []
    5 [] (by decide) (fun l => rfl) (by simp [keysNodup])
  refine ⟨h.1, ?_, ?_⟩
  · have h2 := h.2.2 "Cary" (by decide)
    exact (by decide : scanCount wEnvA "Cary" = 2) ▸ h2
  · have h2 := h.2.2 "Durham East" (by decide)
    exact (by decide : scanCount wEnvA "Durham East" = 0) ▸ h2

/-- C2 counterexample: the dispatcher never consults
`last_notification_sent` (no code path reads or writes it), so a scan that
observes unchanged slot data still pushes to a subscriber who was already
notified.  `wSub1` has `last_notification_sent` set, Cary's slot data is
unchanged between the two (identical) scans, and the scan's notification
record shows a push attempt to `"u1"` — each scan, including the second
one, sends to the already-notified subscriber. -/
theorem C2_counterexample :
    wSub1.last_notification_sent = some 100 ∧
    (check_locations ["Cary"] wEnvA Config.category_map "Fees"
      [wSub1]).notifications = [("Cary", ["u1"])] := by
  constructor
  · rfl
  · decide

/-- C2 amended: the second identical scan's snapshot write does
reset-then-rewrite the counts to the same values, but it does not suppress
re-notification: subscriber selection is a pure function of the loaded
subscriptions' category/location sets and push descriptor, independent of
`last_notification_sent`, so the second scan selects exactly the same
subscribers as the first. -/
theorem C2_amended_idempotent_write_but_renotify
    (cat : String) (locs : List String) (sd : List (String × Nat))
    (ts1 ts2 : Int) (rows : List Row)
    (h0 : keysNodup rows) (hnd : (sd.map Prod.fst).Nodup)
    (hsub : ∀ l ∈ sd.map Prod.fst, l ∈ locs) :
    (∀ c l,
      (rowsFor (save_slots_info cat locs sd ts2
          (save_slots_info cat locs sd ts1 rows)) c l).map Row.has_slots =
      (rowsFor (save_slots_info cat locs sd ts1 rows) c l).map
        Row.has_slots) ∧
    (∀ (cmap : List (String × String)) (category loc : String)
        (slots : List (String × List String)) (subs : List Subscription)
        (t : Option Int),
      (send_targets cmap category loc slots (subs.map
          (fun s => { s with last_notification_sent := t }))).map
        Subscription.user_id =
      (send_targets cmap category loc slots subs).map
        Subscription.user_id) := by
  constructor
  · intro c l
    by_cases hc : c = cat ∧ l ∈ locs
    · obtain ⟨hceq, hlmem⟩ := hc
      subst hceq
      rw [rowsFor_save_mem (keysNodup_save _ _ _ _ h0) hnd hlmem,
        rowsFor_save_mem h0 hnd hlmem]
      rfl
    · have hne : ¬(c = cat ∧ (l ∈ locs ∨ l ∈ sd.map Prod.fst)) := by
        rintro ⟨hceq, hor⟩
        rcases hor with hl | hl
        · exact hc ⟨hceq, hl⟩
        · exact hc ⟨hceq, hsub l hl⟩
      rw [rowsFor_save_ne hne]
  · intro cmap category loc slots subs t
    unfold send_targets
    by_cases hs : slots.isEmpty = true
    · simp [hs]
    · have hs' : slots.isEmpty = false := by simpa using hs
      simp only [hs', Bool.false_eq_true, if_false]
      cases subs with
      | nil => rfl
      | cons s₀ srest =>
        have h1 : (s₀ :: srest).isEmpty = false := rfl
        have h2 : ((s₀ :: srest).map
            (fun s => { s with last_notification_sent := t })).isEmpty =
              false := rfl
        simp only [h1, h2, Bool.false_eq_true, if_false]
        cases lookupCategory cmap category with
        | none => rfl
        | some key =>
          simp only [List.filter_map, List.map_map]
          rfl

/-- Witness for the amended C2 at a concrete double write and a concrete
subscriber list. -/
theorem C2_amended_idempotent_write_but_renotify_witness :
    (rowsFor (save_slots_info "fees" ["Cary"] [("Cary", 2)] 9
        (save_slots_info "fees" ["Cary"] [("Cary", 2)] 5 [])) "fees"
      "Cary").map Row.has_slots =
    (rowsFor (save_slots_info "fees" ["Cary"] [("Cary", 2)] 5 []) "fees"
      "Cary").map Row.has_slots ∧
    (send_targets Config.category_map "Fees" "Cary" wSlots
        ([wSub1].map (fun s => { s with last_notification_sent := none }))).map
      Subscription.user_id =
    (send_targets Config.category_map "Fees" "Cary" wSlots [wSub1]).map
      Subscription.user_id := by
  have h := C2_amended_idempotent_write_but_renotify "fees" ["Cary"]
    [("Cary", 2)] 5 9 [] (by simp [keysNodup]) (by decide) (by decide)
  exact ⟨h.1 "fees" "Cary",
    h.2 Config.category_map "Fees" "Cary" wSlots [wSub1] none⟩

/-- C3: when no fatal-error banner is ever detected and every attempt of
`safe_click` fails, the call ends in `RestartRequiredException` with
exactly one diagnostic screenshot requested; and when the banner is
detected on the first failing attempt, the call raises
`ServerErrorException` immediately — no further attempt is consumed and no
screenshot is taken. -/
theorem C3_safe_click_exhaustion_and_banner :
    (∀ (he : Bool) (attempts : List Attempt),
      attempts ≠ [] →
      (∀ a ∈ attempts, attempt_succeeds he a = false) →
      (∀ a ∈ attempts, a.banner = false) →
      (safe_click he attempts).outcome = SCOutcome.restartRequired ∧
      (safe_click he attempts).screenshots = 1) ∧
    (∀ (he : Bool) (pre : List Attempt) (a : Attempt) (post : List Attempt),
      (∀ p ∈ pre, attempt_succeeds he p = false) →
      (∀ p ∈ pre, p.banner = false) →
      attempt_succeeds he a = false → a.banner = true →
      (safe_click he (pre ++ a :: post)).outcome = SCOutcome.serverError ∧
      (safe_click he (pre ++ a :: post)).screenshots = 0 ∧
      (safe_click he (pre ++ a :: post)).attempts_used = pre.length + 1) := by
  constructor
  · intro he attempts hne hfail hnb
    exact safeClickGo_exhaust he attempts 0 0 0 hne hfail hnb
  · intro he pre a post hfail hnb hfa hba
    have h := safeClickGo_banner he pre a post 0 0 0 hfail hnb hfa hba
    exact ⟨h.1, h.2.1, by unfold safe_click; rw [h.2.2]; omega⟩

/-- Witness for C3: three failing bannerless attempts exhaust the retry
budget with one screenshot; a banner on the second attempt stops the call
at attempt 2 with no screenshot. -/
theorem C3_safe_click_exhaustion_and_banner_witness :
    ((safe_click true (List.replicate 3 ⟨ExpCheck.notVisible, false,
        false⟩)).outcome = SCOutcome.restartRequired ∧
      (safe_click true (List.replicate 3 ⟨ExpCheck.notVisible, false,
        false⟩)).screenshots = 1) ∧
    ((safe_click true ([⟨ExpCheck.notVisible, false, false⟩] ++
        ⟨ExpCheck.notVisible, false, true⟩ ::
        [⟨ExpCheck.notVisible, false, false⟩])).outcome =
          SCOutcome.serverError ∧
      (safe_click true ([⟨ExpCheck.notVisible, false, false⟩] ++
        ⟨ExpCheck.notVisible, false, true⟩ ::
        [⟨ExpCheck.notVisible, false, false⟩])).screenshots = 0 ∧
      (safe_click true ([⟨ExpCheck.notVisible, false, false⟩] ++
        ⟨ExpCheck.notVisible, false, true⟩ ::
        [⟨ExpCheck.notVisible, false, false⟩])).attempts_used = 2) := by
  constructor
  · exact C3_safe_click_exhaustion_and_banner.1 true
      (List.replicate 3 ⟨ExpCheck.notVisible, false, false⟩) (by decide)
      (by decide) (by decide)
  · exact C3_safe_click_exhaustion_and_banner.2 true
      [⟨ExpCheck.notVisible, false, false⟩]
      ⟨ExpCheck.notVisible, false, true⟩
      [⟨ExpCheck.notVisible, false, false⟩] (by decide) (by decide)
      (by decide) (by decide)

/-- C8: when an expected state is given and it is already visible at the
start of the first attempt, `safe_click` returns success immediately with
zero clicks performed (and no screenshot, after one attempt). -/
theorem C8_safe_click_idempotent_short_circuit (a : Attempt)
    (rest : List Attempt) (h : a.exp_check = ExpCheck.visible) :
    safe_click true (a :: rest) =
      ⟨SCOutcome.success, 0, 0, 1⟩ := by
  unfold safe_click
  rw [safeClickGo]
  simp [h]

/-- Witness for C8 at a concrete attempt whose expected-state probe
reports visible. -/
theorem C8_safe_click_idempotent_short_circuit_witness :
    safe_click true [⟨ExpCheck.visible, false, false⟩,
      ⟨ExpCheck.notVisible, true, false⟩] =
      ⟨SCOutcome.success, 0, 0, 1⟩ :=
  C8_safe_click_idempotent_short_circuit ⟨ExpCheck.visible, false, false⟩
    [⟨ExpCheck.notVisible, true, false⟩] rfl

/-- C4: a `ServerErrorException` or any other exception raised while
entering a location or extracting its slots leaves that location recorded
with zero slots and the scan continues (it completes and reaches the
snapshot write); back-navigation happens exactly once per entered
location, and — for every environment, back-navigation failures included —
the number of back-navigations equals the number of recorded per-location
entries. -/
theorem C4_location_errors_absorbed
    (locs : List String) (env : String → LocEnv)
    (cmap : List (String × String)) (category : String)
    (subs : List Subscription)
    (hnd : locs.Nodup) (hgb : ∀ l, (env l).go_back_ok = true) :
    (check_locations locs env cmap category subs).completed = true ∧
    (∀ loc ∈ locs,
      ((env loc).outcome = LocOutcome.serverError ∨
        (env loc).outcome = LocOutcome.otherError) →
      (loc, 0) ∈ (check_locations locs env cmap category subs).slots_data) ∧
    (check_locations locs env cmap category subs).go_backs =
      (locs.filter (fun l => isPresent (env l).outcome)).length ∧
    (∀ env' : String → LocEnv,
      (check_locations locs env' cmap category subs).go_backs =
        (check_locations locs env' cmap category
          subs).slots_data.length) := by
  have hvis : ∀ l ∈ locs, l ∉ ([] : List String) :=
    fun l _ hc => List.not_mem_nil l hc
  have hspec := checkLocationsGo_spec env cmap category subs locs [] hnd
    hvis (fun l _ => hgb l)
  refine ⟨by unfold check_locations; rw [hspec], ?_,
    by unfold check_locations; rw [hspec],
    fun env' => checkLocationsGo_go_backs env' cmap category subs locs []⟩
  intro loc hl herr
  unfold check_locations
  rw [hspec]
  simp only
  apply List.mem_filterMap.mpr
  refine ⟨loc, hl, ?_⟩
  have hp : isPresent (env loc).outcome = true := by
    rcases herr with h | h <;> simp [h, isPresent]
  have hz : scanCount env loc = 0 := by
    rcases herr with h | h <;>
      simp [scanCount, h, observedSlots, totalTimes]
  rw [hp]
  simp [hz]

/-- Witness for C4 at the concrete scenario `wEnvA`: the errored Durham
East location is recorded with zero slots, the scan completes, and the two
present locations each get exactly one back-navigation. -/
theorem C4_location_errors_absorbed_witness :
    (check_locations ["Cary", "Durham East", "Raleigh North"] wEnvA
      Config.category_map "Fees" []).completed = true ∧
    ("Durham East", 0) ∈ (check_locations
      ["Cary", "Durham East", "Raleigh North"] wEnvA Config.category_map
      "Fees" []).slots_data ∧
    (check_locations ["Cary", "Durham East", "Raleigh North"] wEnvA
      Config.category_map "Fees" []).go_backs = 2 := by
  have h := C4_location_errors_absorbed
    ["Cary", "Durham East", "Raleigh North"] wEnvA Config.category_map
    "Fees" [] (by decide) (fun l => rfl)
  refine ⟨h.1, h.2.1 "Durham East" (by decide) (Or.inl (by decide)), ?_⟩
  have h2 := h.2.2.1
  exact (by decide : (["Cary", "Durham East", "Raleigh North"].filter
    (fun l => isPresent (wEnvA l).outcome)).length = 2) ▸ h2

/-- C5: a loaded subscription with a push descriptor is selected for a
notification event if and only if its category set contains the event
category's stable key and its location set contains the event's location
name. -/
theorem C5_subscriber_matching
    (cmap : List (String × String)) (category location_name key : String)
    (total_slots : List (String × List String)) (subs : List Subscription)
    (sub : Subscription)
    (hkey : lookupCategory cmap category = some key)
    (hts : total_slots ≠ [])
    (hmem : sub ∈ subs) (hpush : sub.push_subscription ≠ "") :
    sub ∈ send_targets cmap category location_name total_slots subs ↔
      (key ∈ sub.categories ∧ location_name ∈ sub.locations) := by
  unfold send_targets
  have h1 : total_slots.isEmpty = false := by
    cases total_slots with
    | nil => exact absurd rfl hts
    | cons a b => rfl
  have h2 : subs.isEmpty = false := by
    cases subs with
    | nil => cases hmem
    | cons a b => rfl
  simp only [h1, h2, Bool.false_eq_true, if_false, hkey]
  rw [List.mem_filter]
  constructor
  · intro h
    have hb := h.2
    simp only [Bool.and_eq_true, List.elem_iff] at hb
    exact ⟨hb.1.2, hb.2⟩
  · intro h
    refine ⟨hmem, ?_⟩
    simp only [Bool.and_eq_true, List.elem_iff, Bool.not_eq_true',
      beq_eq_false_iff_ne, ne_eq]
    exact ⟨⟨hpush, h.1⟩, h.2⟩

/-- Witness for C5: the spec's example — a subscription for
categories `{fees}` and locations `{Cary}` matches the event
`("fees", "Cary")` but neither `("fees", "Durham East")` nor
`("permits", "Cary")` (here via the labels "Fees"/"Permits" that map to
those keys). -/
theorem C5_subscriber_matching_witness :
    wSub1 ∈ send_targets Config.category_map "Fees" "Cary" wSlots
      [wSub1] ∧
    wSub1 ∉ send_targets Config.category_map "Fees" "Durham East" wSlots
      [wSub1] ∧
    wSub1 ∉ send_targets Config.category_map "Permits" "Cary" wSlots
      [wSub1] := by
  refine ⟨?_, ?_, ?_⟩
  · exact (C5_subscriber_matching Config.category_map "Fees" "Cary" "fees"
      wSlots [wSub1] wSub1 (by decide) (by decide) (by decide)
      (by decide)).mpr (by decide)
  · intro hc
    exact (by decide : ¬("fees" ∈ wSub1.categories ∧
        "Durham East" ∈ wSub1.locations))
      ((C5_subscriber_matching Config.category_map "Fees" "Durham East"
        "fees" wSlots [wSub1] wSub1 (by decide) (by decide) (by decide)
        (by decide)).mp hc)
  · intro hc
    exact (by decide : ¬("permits" ∈ wSub1.categories ∧
        "Cary" ∈ wSub1.locations))
      ((C5_subscriber_matching Config.category_map "Permits" "Cary"
        "permits" wSlots [wSub1] wSub1 (by decide) (by decide) (by decide)
        (by decide)).mp hc)

/-- C6: the message body renders each date line in insertion order with at
most 2 times plus `"(+K more)"` when more exist, shows at most 3 date
lines, and appends `"(+M more dates)"` when more than 3 dates exist; on
the spec's four-date example every line is
`"June N: 9:00, 10:00 (+1 more)"`, only the first three are displayed, and
the suffix is `"(+1 more dates)"`. -/
theorem C6_message_composition :
    (∀ ts : List (String × List String), (display_lines ts).length ≤ 3) ∧
    (∀ times : List String, 2 < times.length →
      format_times times = String.intercalate ", " (times.take 2) ++
        " (+" ++ toString (times.length - 2) ++ " more)") ∧
    (∀ ts : List (String × List String), 3 < ts.length →
      more_dates_suffix ts =
        "\n(+" ++ toString (ts.length - 3) ++ " more dates)") ∧
    slots_lines juneSlots =
      ["June 1: 9:00, 10:00 (+1 more)", "June 2: 9:00, 10:00 (+1 more)",
       "June 3: 9:00, 10:00 (+1 more)", "June 4: 9:00, 10:00 (+1 more)"] ∧
    display_lines juneSlots =
      ["June 1: 9:00, 10:00 (+1 more)", "June 2: 9:00, 10:00 (+1 more)",
       "June 3: 9:00, 10:00 (+1 more)"] ∧
    more_dates_suffix juneSlots = "\n(+1 more dates)" := by
  refine ⟨?_, ?_, ?_, by decide, by decide, by decide⟩
  · intro ts
    unfold display_lines
    rw [List.length_take]
    exact min_le_left _ _
  · intro times h
    unfold format_times
    rw [if_pos h]
  · intro ts h
    unfold more_dates_suffix
    have hlen : (slots_lines ts).length = ts.length := by
      simp [slots_lines]
    rw [hlen, if_pos h]

/-- Witness for C6's quantified parts at the example data. -/
theorem C6_message_composition_witness :
    (display_lines juneSlots).length ≤ 3 ∧
    format_times ["9:00", "10:00", "11:00"] =
      String.intercalate ", " ((["9:00", "10:00", "11:00"] :
        List String).take 2) ++ " (+" ++
        toString ((["9:00", "10:00", "11:00"] : List String).length - 2) ++
        " more)" ∧
    more_dates_suffix juneSlots =
      "\n(+" ++ toString (juneSlots.length - 3) ++ " more dates)" :=
  ⟨C6_message_composition.1 juneSlots,
   C6_message_composition.2.1 ["9:00", "10:00", "11:00"] (by decide),
   C6_message_composition.2.2.1 juneSlots (by decide)⟩

/-- C7: a slot extraction reads the currently displayed month and, only
when the next-month control is present and enabled, exactly one more: the
control is clicked at most once, so no extraction reads more than two
months. -/
theorem C7_two_month_horizon (env : SlotEnv) :
    (check_slots env).next_clicks ≤ 1 ∧
    (check_slots env).months_read ≤ 2 ∧
    ((check_slots env).next_clicks =
      if env.next_available then 1 else 0) ∧
    (env.next_available = false → (check_slots env).months_read = 1) ∧
    (env.next_available = true → env.next_click_ok = true →
      (check_slots env).months_read = 2) := by
  unfold check_slots
  by_cases h : env.next_available = true
  · by_cases h2 : env.next_click_ok = true
    · simp [h, h2]
    · have h2f : env.next_click_ok = false := by simpa using h2
      simp [h, h2f]
  · have hf : env.next_available = false := by simpa using h
    simp [hf]

/-- Witness for C7: one extraction with the next-month control enabled
reads two months with one click; one without it reads a single month with
no click. -/
theorem C7_two_month_horizon_witness :
    (check_slots ⟨true, [("June 2, 2025", ["9:00 AM"])],
      [("July 1, 2025", ["10:00 AM"])], true⟩).months_read = 2 ∧
    (check_slots ⟨true, [("June 2, 2025", ["9:00 AM"])],
      [("July 1, 2025", ["10:00 AM"])], true⟩).next_clicks ≤ 1 ∧
    (check_slots ⟨false, [("June 2, 2025", ["9:00 AM"])], [],
      true⟩).months_read = 1 :=
  ⟨(C7_two_month_horizon ⟨true, [("June 2, 2025", ["9:00 AM"])],
      [("July 1, 2025", ["10:00 AM"])], true⟩).2.2.2.2 rfl rfl,
   (C7_two_month_horizon ⟨true, [("June 2, 2025", ["9:00 AM"])],
      [("July 1, 2025", ["10:00 AM"])], true⟩).1,
   (C7_two_month_horizon ⟨false, [("June 2, 2025", ["9:00 AM"])], [],
      true⟩).2.2.2.1 rfl⟩

/-- C9: the purge runs at the start of each scan cycle, and it retains a
subscription if and only if its `created_at` is not strictly older than
the cutoff `now - max_age_hours·3600`; the removal count is the number of
strictly-older rows. -/
theorem C9_subscription_purge :
    run_cycle_steps.head? = some CycleStep.purgeOldSubscriptions ∧
    (∀ (now max_age_hours : Int) (subs : List Subscription)
        (sub : Subscription), sub ∈ subs →
      (sub ∈ (remove_old_subscriptions now max_age_hours subs).1 ↔
        ¬(sub.created_at < now - max_age_hours * 3600))) ∧
    (∀ (now max_age_hours : Int) (subs : List Subscription),
      (remove_old_subscriptions now max_age_hours subs).2 =
        (subs.filter (fun s =>
          decide (s.created_at < now - max_age_hours * 3600))).length) := by
  refine ⟨rfl, ?_, fun _ _ _ => rfl⟩
  intro now mah subs sub hmem
  unfold remove_old_subscriptions
  simp only
  rw [List.mem_filter]
  simp [hmem]

/-- Witness for C9: with `now = 1000000` and a 72-hour window (cutoff
`740800`), `wSub1` (`created_at = 0`) is purged and `wSub2`
(`created_at = 740801`, one second younger than the cutoff) is
retained. -/
theorem C9_subscription_purge_witness :
    wSub1 ∉ (remove_old_subscriptions 1000000 72 [wSub1, wSub2]).1 ∧
    wSub2 ∈ (remove_old_subscriptions 1000000 72 [wSub1, wSub2]).1 := by
  constructor
  · intro hc
    exact (C9_subscription_purge.2.1 1000000 72 [wSub1, wSub2] wSub1
      (by decide)).mp hc (by decide)
  · exact (C9_subscription_purge.2.1 1000000 72 [wSub1, wSub2] wSub2
      (by decide)).mpr (by decide)

/-- C10: the audience claim is picked by substring match on the endpoint
in fixed priority — apple.com, then fcm.googleapis.com, then mozilla.com,
else the endpoint URL's scheme and host — and the monitor's `send_push`
and the API's `send_push_notification` compute the same audience for every
endpoint. -/
theorem C10_push_audience :
    (∀ e, strContains e "apple.com" = true →
      send_push_aud e = "https://web.push.apple.com") ∧
    (∀ e, strContains e "apple.com" = false →
      strContains e "fcm.googleapis.com" = true →
      send_push_aud e = "https://fcm.googleapis.com") ∧
    (∀ e, strContains e "apple.com" = false →
      strContains e "fcm.googleapis.com" = false →
      strContains e "mozilla.com" = true →
      send_push_aud e = "https://updates.push.services.mozilla.com") ∧
    (∀ e, strContains e "apple.com" = false →
      strContains e "fcm.googleapis.com" = false →
      strContains e "mozilla.com" = false →
      send_push_aud e = (urlparse_scheme_netloc e).1 ++ "://" ++
        (urlparse_scheme_netloc e).2) ∧
    (∀ e, send_push_aud e = api_send_push_aud e) := by
  refine ⟨?_, ?_, ?_, ?_, fun e => rfl⟩
  · intro e h
    unfold send_push_aud
    rw [if_pos h]
  · intro e h1 h2
    unfold send_push_aud
    rw [if_neg (by simp [h1]), if_pos h2]
  · intro e h1 h2 h3
    unfold send_push_aud
    rw [if_neg (by simp [h1]), if_neg (by simp [h2]), if_pos h3]
  · intro e h1 h2 h3
    unfold send_push_aud
    rw [if_neg (by simp [h1]), if_neg (by simp [h2]),
      if_neg (by simp [h3])]

/-- Witness for C10 at one endpoint per branch. -/
theorem C10_push_audience_witness :
    send_push_aud "https://web.push.apple.com/AAA" =
      "https://web.push.apple.com" ∧
    send_push_aud "https://fcm.googleapis.com/fcm/send/x" =
      "https://fcm.googleapis.com" ∧
    send_push_aud "https://updates.push.services.mozilla.com/w/y" =
      "https://updates.push.services.mozilla.com" ∧
    send_push_aud "https://example.com/push/v1" = "https://example.com" ∧
    send_push_aud "https://example.com/push/v1" =
      api_send_push_aud "https://example.com/push/v1" := by
  refine ⟨C10_push_audience.1 _ (by decide),
    C10_push_audience.2.1 _ (by decide) (by decide),
    C10_push_audience.2.2.1 _ (by decide) (by decide) (by decide), ?_,
    C10_push_audience.2.2.2.2 _⟩
  have h := C10_push_audience.2.2.2.1 "https://example.com/push/v1"
    (by decide) (by decide) (by decide)
  rw [h]
  decide

end DMV
